import Mathlib

/-!
Verification of the streaming pipeline-progress reconstruction engine of the
sih_0_AA_Synpase repository.

The embedding follows the sources:
* the pipeline reducer is the incremental variant in
  `src/client/app/components/Dashboard.tsx` (the `useEffect` body of the
  `LogDisplay` component): each appended event is processed as `lastLog`
  against the previous derived step array, so deriving from a whole log is a
  left fold of the single-event transition over the log;
* the raw-JSON display mode check comes from
  `src/client/app/components/LogDisplay.tsx` (MODE 1);
* the sample registry is `src/app/store/useStore.ts`.
-/

namespace Synapse

/-- The four statuses a pipeline step can carry (`PipelineStep['status']`). -/
inductive Status where
  | pending
  | active
  | complete
  | error
deriving DecidableEq, Repr

/-- One entry of the pipeline array. `α` is the type of the untyped (`any`)
payload attached as `resultData`. -/
structure PipelineStep (α : Type) where
  id : String
  label : String
  status : Status
  resultData : Option α := none
deriving DecidableEq, Repr

/-- The `AnalysisLog` tagged union of stream events. `α` is the payload type
of the untyped `data` fields. -/
inductive AnalysisLog (α : Type) where
  | log (message : String)
  | progress (step : String) (status : String)
  | clustering_result (data : α)
  | verification_update (data : α)
  | complete
  | error (message : String)
  | json_result (data : α)
deriving DecidableEq, Repr

/-- `startsWithChars pat l` : does `l` start with `pat`? (helper for the
JavaScript `String.prototype.includes` used by the reducer). -/
def startsWithChars : List Char → List Char → Bool
  | [], _ => true
  | _ :: _, [] => false
  | p :: ps, c :: cs => p == c && startsWithChars ps cs

/-- `containsChars pat hay` : does `hay` contain `pat` as a contiguous run? -/
def containsChars (pat : List Char) : List Char → Bool
  | [] => startsWithChars pat []
  | c :: cs => startsWithChars pat (c :: cs) || containsChars pat cs

/-- Model of `message.includes(pat)` on strings. -/
def includesStr (s pat : String) : Bool :=
  containsChars pat.toList s.toList

/-- Model of `message.toLowerCase()`: lowercase the string character by
character (structural recursion, so it evaluates inside proofs). -/
def toLowerStr (s : String) : String :=
  ⟨s.data.map Char.toLower⟩

/-- `INITIAL_PIPELINE` from `Dashboard.tsx` / `LogDisplay.tsx`. -/
def INITIAL_PIPELINE (α : Type) : List (PipelineStep α) :=
  [ { id := "read_sequences", label := "Reading Sequences...", status := .pending },
    { id := "generate_embeddings", label := "Generating AI Embeddings...", status := .pending },
    { id := "umap_hdbscan", label := "Running UMAP & HDBSCAN...", status := .pending },
    { id := "clustering_result", label := "Clustering Complete", status := .pending },
    { id := "ncbi_verification", label := "Starting NCBI Verification (Slow)...", status := .pending },
    { id := "analysis_complete", label := "Analysis Complete", status := .pending } ]

/-- Model of `Array.prototype.findIndex` (returning `none` for `-1`),
counting from `n`. -/
def findIndexFrom {α : Type} (p : PipelineStep α → Bool) :
    List (PipelineStep α) → Nat → Option Nat
  | [], _ => none
  | s :: rest, n => if p s then some n else findIndexFrom p rest (n + 1)

/-- `findIndexById` from the reducer: `newSteps.findIndex(s => s.id === id)`. -/
def findIndexById {α : Type} (steps : List (PipelineStep α)) (stepId : String) : Option Nat :=
  findIndexFrom (fun s => s.id == stepId) steps 0

/-- Activate the step at `index` if it exists and its status is still
`pending` (the body shared by `activateStep` and by `handleCompletion`'s
"activate the next step" block: `if (... && newSteps[i].status === 'pending')
newSteps[i] = { ...newSteps[i], status: 'active' }`). -/
def cascadeActivate {α : Type} (steps : List (PipelineStep α)) (index : Nat) :
    List (PipelineStep α) :=
  match steps[index]? with
  | none => steps
  | some t =>
    if t.status = .pending then steps.set index { t with status := .active }
    else steps

/-- Body of `handleCompletion` once the index is known: if the step at `index`
is not yet `complete`, mark it `complete` with the given `resultData`, then
activate the step at `index + 1` if it exists and is still `pending`. -/
def completeAt {α : Type} (steps : List (PipelineStep α)) (index : Nat)
    (resultData : Option α) : List (PipelineStep α) :=
  match steps[index]? with
  | none => steps
  | some s =>
    if s.status = .complete then steps
    else
      cascadeActivate (steps.set index { s with status := .complete, resultData := resultData })
        (index + 1)

/-- `handleCompletion(stepId, resultData?)` from `Dashboard.tsx`. -/
def handleCompletion {α : Type} (steps : List (PipelineStep α)) (stepId : String)
    (resultData : Option α) : List (PipelineStep α) :=
  match findIndexById steps stepId with
  | none => steps
  | some index => completeAt steps index resultData

/-- `activateStep(stepId)` from `Dashboard.tsx`: pending steps (and only
pending steps) become active. -/
def activateStep {α : Type} (steps : List (PipelineStep α)) (stepId : String) :
    List (PipelineStep α) :=
  match findIndexById steps stepId with
  | none => steps
  | some index => cascadeActivate steps index

/-- The state the `LogDisplay` component keeps between events: the derived
step array and the last `verification_update` event seen. -/
structure DeriveState (α : Type) where
  steps : List (PipelineStep α)
  lastVerificationUpdate : Option (AnalysisLog α) := none
deriving DecidableEq, Repr

/-- One pass of the `useEffect` body over the newly appended `lastLog`. -/
def applyEvent {α : Type} (st : DeriveState α) (lastLog : AnalysisLog α) : DeriveState α :=
  match lastLog with
  | .log message =>
    let m := toLowerStr message
    if includesStr m "reading sequences" then
      { st with steps := activateStep st.steps "read_sequences" }
    else if includesStr m "found" && includesStr m "sequences" then
      { st with steps := handleCompletion st.steps "read_sequences" none }
    else if includesStr m "generating" && includesStr m "embeddings" then
      { st with steps := activateStep st.steps "generate_embeddings" }
    else if includesStr m "running umap" then
      { st with steps :=
          (activateStep (handleCompletion st.steps "generate_embeddings" none) "umap_hdbscan") }
    else if includesStr m "clustering complete" then
      { st with steps := handleCompletion st.steps "umap_hdbscan" none }
    else if includesStr m "ncbi verification" then
      { st with steps := activateStep st.steps "ncbi_verification" }
    else st
  | .progress step status =>
    if status == "complete" && step != "" then
      { st with steps := handleCompletion st.steps step none }
    else st
  | .clustering_result data =>
    { st with steps :=
        (handleCompletion (handleCompletion st.steps "umap_hdbscan" none)
          "clustering_result" (some data)) }
  | .complete =>
    { st with steps :=
        (handleCompletion (handleCompletion st.steps "ncbi_verification" none)
          "analysis_complete" none) }
  | .verification_update _ =>
    { steps := activateStep st.steps "ncbi_verification",
      lastVerificationUpdate := some lastLog }
  | .error _ => st
  | .json_result _ => st

/-- The component state before any event arrived. -/
def initState (α : Type) : DeriveState α :=
  { steps := INITIAL_PIPELINE α, lastVerificationUpdate := none }

/-- Derived state after the whole event log arrived one event at a time. -/
def deriveState {α : Type} (logs : List (AnalysisLog α)) : DeriveState α :=
  logs.foldl applyEvent (initState α)

/-- The derived pipeline-step array for an event log. -/
def deriveSteps {α : Type} (logs : List (AnalysisLog α)) : List (PipelineStep α) :=
  (deriveState logs).steps

/-- Number of steps with status `active` in a step array. -/
def activeCount {α : Type} (steps : List (PipelineStep α)) : Nat :=
  steps.countP (fun s => s.status == .active)

/-- The two rendering modes of `LogDisplay.tsx`: MODE 1 surfaces the raw
`json_result` payload, MODE 2 renders the derived pipeline steps. -/
inductive DisplayMode (α : Type) where
  | rawJson (data : α)
  | pipeline (steps : List (PipelineStep α))
deriving DecidableEq, Repr

/-- MODE selection in `LogDisplay.tsx`: if the first log is a `json_result`,
render its raw payload; otherwise render the derived pipeline steps. -/
def renderMode {α : Type} (logs : List (AnalysisLog α)) : DisplayMode α :=
  match logs with
  | .json_result d :: _ => .rawJson d
  | _ => .pipeline (deriveSteps logs)

/-- The six fixed step ids, in pipeline order. -/
def stepIds : List String :=
  ["read_sequences", "generate_embeddings", "umap_hdbscan",
   "clustering_result", "ncbi_verification", "analysis_complete"]

/-- A step array has the canonical shape when its ids are the six fixed ids
in order (every array derived from `INITIAL_PIPELINE` has this shape). -/
def Shaped {α : Type} (l : List (PipelineStep α)) : Prop :=
  l.map (fun s => s.id) = stepIds

/-- The forward order on statuses realized by the reducer: a status may stay
put, a `pending` status may move anywhere, and any status may move to
`complete`.  No transition of the reducer ever leaves this order. -/
def statusLE (s t : Status) : Prop :=
  s = t ∨ s = .pending ∨ t = .complete

/-- How one entry of the step array may change under a single reducer
operation: it stays put, a not-yet-complete step is marked `complete` with
some `resultData`, or a `pending` step is marked `active`. -/
def stepEvolves {α : Type} (o n : Option (PipelineStep α)) : Prop :=
  n = o ∨
  (∃ s d, o = some s ∧ s.status ≠ .complete ∧
    n = some { s with status := .complete, resultData := d }) ∨
  (∃ s, o = some s ∧ s.status = .pending ∧ n = some { s with status := .active })

/-- `Sample['status']` of the registry (`src/app/types`). -/
inductive SampleStatus where
  | uploading
  | running
  | complete
  | error
deriving DecidableEq, Repr

/-- A job record of the sample registry (`useStore.ts`).  `π` is the payload
type of `latestAnalysis` (`AnalysisResult`), `ρ` of `progress` entries
(`ProgressStep`), `ν` of `verificationUpdates` (`VerificationUpdate`). -/
structure Sample (π ρ ν : Type) where
  fileId : String
  sampleId : String
  status : SampleStatus
  fileName : String
  uploadDate : String
  logs : List String
  progress : List ρ
  verificationUpdates : List ν
  latestAnalysis : Option π := none
deriving DecidableEq, Repr

/-- `addSample` from `useStore.ts`: `[...state.samples, sample]`. -/
def addSample {π ρ ν : Type} (samples : List (Sample π ρ ν)) (sample : Sample π ρ ν) :
    List (Sample π ρ ν) :=
  samples ++ [sample]

/-- `updateSampleStatus` from `useStore.ts`. -/
def updateSampleStatus {π ρ ν : Type} (samples : List (Sample π ρ ν)) (fileId : String)
    (status : SampleStatus) : List (Sample π ρ ν) :=
  samples.map (fun s => if s.fileId == fileId then { s with status := status } else s)

/-- `addSampleLog` from `useStore.ts`. -/
def addSampleLog {π ρ ν : Type} (samples : List (Sample π ρ ν)) (fileId : String)
    (log : String) : List (Sample π ρ ν) :=
  samples.map (fun s => if s.fileId == fileId then { s with logs := s.logs ++ [log] } else s)

/-- `updateSampleProgress` from `useStore.ts`. -/
def updateSampleProgress {π ρ ν : Type} (samples : List (Sample π ρ ν)) (fileId : String)
    (progress : ρ) : List (Sample π ρ ν) :=
  samples.map (fun s =>
    if s.fileId == fileId then { s with progress := s.progress ++ [progress] } else s)

/-- `setSampleAnalysisResult` from `useStore.ts`. -/
def setSampleAnalysisResult {π ρ ν : Type} (samples : List (Sample π ρ ν)) (fileId : String)
    (result : π) : List (Sample π ρ ν) :=
  samples.map (fun s =>
    if s.fileId == fileId then { s with latestAnalysis := some result } else s)

/-- `addSampleVerificationUpdate` from `useStore.ts`. -/
def addSampleVerificationUpdate {π ρ ν : Type} (samples : List (Sample π ρ ν)) (fileId : String)
    (update : ν) : List (Sample π ρ ν) :=
  samples.map (fun s =>
    if s.fileId == fileId then { s with verificationUpdates := s.verificationUpdates ++ [update] }
    else s)

/-- `getSample` from `useStore.ts`: `samples.find(s => s.fileId === fileId)`. -/
def getSample {π ρ ν : Type} (samples : List (Sample π ρ ν)) (fileId : String) :
    Option (Sample π ρ ν) :=
  samples.find? (fun s => s.fileId == fileId)

/-- Whether an event is terminal (`complete` or `error`). -/
def isTerminal {α : Type} : AnalysisLog α → Bool
  | .complete => true
  | .error _ => true
  | _ => false

/-- Modelled from the spec: the event-stream connector (`useAnalysisWebSocket`)
is not among the sources, only its callers are.  Per spec §4.1/§7, a terminal
`complete` or `error` event ends the subscription and later events are
discarded rather than appended to the job's event log. -/
def connectorAppend {α : Type} (eventLog : List (AnalysisLog α)) (e : AnalysisLog α) :
    List (AnalysisLog α) :=
  if eventLog.any (fun x => isTerminal x) then eventLog else eventLog ++ [e]

/-- Modelled from the spec: the event-stream connector (`useAnalysisWebSocket`)
is not among the sources.  Per spec §7, a terminal `error` event marks the
job's status `error` (via `updateSampleStatus`), and a `complete` event marks
it `complete`; other events leave the status alone. -/
def connectorStatus {α : Type} (prev : SampleStatus) (e : AnalysisLog α) : SampleStatus :=
  match e with
  | .error _ => .error
  | .complete => .complete
  | _ => prev

/-- The job status after the connector processed a whole event log. -/
def jobStatusAfter {α : Type} (start : SampleStatus) (eventLog : List (AnalysisLog α)) :
    SampleStatus :=
  eventLog.foldl connectorStatus start

/-- A concrete job record used in counterexamples and witnesses. -/
def sampleA : Sample Unit Unit Unit :=
  { fileId := "file-1", sampleId := "s-1", status := .uploading, fileName := "a.fasta",
    uploadDate := "2024-01-01", logs := [], progress := [], verificationUpdates := [],
    latestAnalysis := none }

/-- `sampleA` after its job completed. -/
def sampleDone : Sample Unit Unit Unit :=
  { sampleA with status := .complete }

/-! ### Registry lemmas

All five keyed mutations of `useStore.ts` are maps of the form
`samples.map (fun s => if s.fileId === fileId then g s else s)`; the next three
lemmas characterize such maps. -/

theorem keyedMap_getElem?_ne {π ρ ν : Type} (samples : List (Sample π ρ ν)) (fid : String)
    (g : Sample π ρ ν → Sample π ρ ν) (i : Nat) (s : Sample π ρ ν)
    (h : samples[i]? = some s) (hne : (s.fileId == fid) = false) :
    (samples.map (fun x => if x.fileId == fid then g x else x))[i]? = some s := by
  have hne' : ¬ s.fileId = fid := by simpa using hne
  simp [List.getElem?_map, h, hne']

theorem keyedMap_getElem?_eq {π ρ ν : Type} (samples : List (Sample π ρ ν)) (fid : String)
    (g : Sample π ρ ν → Sample π ρ ν) (i : Nat) (s : Sample π ρ ν)
    (h : samples[i]? = some s) (heq : (s.fileId == fid) = true) :
    (samples.map (fun x => if x.fileId == fid then g x else x))[i]? = some (g s) := by
  have heq' : s.fileId = fid := by simpa using heq
  simp [List.getElem?_map, h, heq']

theorem keyedMap_no_match {π ρ ν : Type} (samples : List (Sample π ρ ν)) (fid : String)
    (g : Sample π ρ ν → Sample π ρ ν)
    (hnone : ∀ x ∈ samples, (x.fileId == fid) = false) :
    samples.map (fun x => if x.fileId == fid then g x else x) = samples := by
  calc samples.map (fun x => if x.fileId == fid then g x else x)
      = samples.map id := List.map_congr_left fun a ha => by simp [hnone a ha]
    _ = samples := List.map_id samples

/-- C10: every keyed registry mutation leaves samples with a different
`fileId` exactly unchanged, rewrites a matching sample only in its targeted
field, and is the identity (with no error signalled) when no sample matches. -/
theorem registry_keyed_mutations_frame {π ρ ν : Type} (samples : List (Sample π ρ ν))
    (fid : String) (st : SampleStatus) (lg : String) (p : ρ) (r : π) (u : ν) :
    (∀ (i : Nat) (s : Sample π ρ ν), samples[i]? = some s → (s.fileId == fid) = false →
      (updateSampleStatus samples fid st)[i]? = some s ∧
      (addSampleLog samples fid lg)[i]? = some s ∧
      (updateSampleProgress samples fid p)[i]? = some s ∧
      (setSampleAnalysisResult samples fid r)[i]? = some s ∧
      (addSampleVerificationUpdate samples fid u)[i]? = some s) ∧
    (∀ (i : Nat) (s : Sample π ρ ν), samples[i]? = some s → (s.fileId == fid) = true →
      (updateSampleStatus samples fid st)[i]? = some { s with status := st } ∧
      (addSampleLog samples fid lg)[i]? = some { s with logs := s.logs ++ [lg] } ∧
      (updateSampleProgress samples fid p)[i]? = some { s with progress := s.progress ++ [p] } ∧
      (setSampleAnalysisResult samples fid r)[i]? = some { s with latestAnalysis := some r } ∧
      (addSampleVerificationUpdate samples fid u)[i]? =
        some { s with verificationUpdates := s.verificationUpdates ++ [u] }) ∧
    ((∀ x ∈ samples, (x.fileId == fid) = false) →
      updateSampleStatus samples fid st = samples ∧
      addSampleLog samples fid lg = samples ∧
      updateSampleProgress samples fid p = samples ∧
      setSampleAnalysisResult samples fid r = samples ∧
      addSampleVerificationUpdate samples fid u = samples) := by
  unfold updateSampleStatus addSampleLog updateSampleProgress setSampleAnalysisResult
    addSampleVerificationUpdate
  refine ⟨fun i s h hne => ?_, fun i s h heq => ?_, fun hnone => ?_⟩
  · exact ⟨keyedMap_getElem?_ne samples fid _ i s h hne,
      keyedMap_getElem?_ne samples fid _ i s h hne,
      keyedMap_getElem?_ne samples fid _ i s h hne,
      keyedMap_getElem?_ne samples fid _ i s h hne,
      keyedMap_getElem?_ne samples fid _ i s h hne⟩
  · exact ⟨keyedMap_getElem?_eq samples fid _ i s h heq,
      keyedMap_getElem?_eq samples fid _ i s h heq,
      keyedMap_getElem?_eq samples fid _ i s h heq,
      keyedMap_getElem?_eq samples fid _ i s h heq,
      keyedMap_getElem?_eq samples fid _ i s h heq⟩
  · exact ⟨keyedMap_no_match samples fid _ hnone,
      keyedMap_no_match samples fid _ hnone,
      keyedMap_no_match samples fid _ hnone,
      keyedMap_no_match samples fid _ hnone,
      keyedMap_no_match samples fid _ hnone⟩

/-- Witness for C10 at a concrete store: a mutation keyed by an absent id
leaves the lone (non-matching) sample, and the whole collection, unchanged. -/
theorem registry_keyed_mutations_frame_witness :
    (updateSampleStatus [sampleDone] "file-2" .running)[0]? = some sampleDone ∧
    addSampleLog [sampleDone] "file-2" "x" = [sampleDone] := by
  refine ⟨((registry_keyed_mutations_frame [sampleDone] "file-2" .running "x" () () ()).1
      0 sampleDone (by decide) (by decide)).1, ?_⟩
  exact (((registry_keyed_mutations_frame [sampleDone] "file-2" .running "x" () () ()).2.2
      (by decide)).2.1)

/-- C5 counterexample: calling `addSample` twice with the same `fileId` does
not signal a duplicate-key failure — the second call appends a second record
(the collection grows to length 2 instead of staying at length 1). -/
theorem addSample_duplicate_counterexample :
    (addSample (addSample [] sampleA) sampleA).length = 2 ∧
    addSample (addSample [] sampleA) sampleA ≠ addSample [] sampleA ∧
    getSample (addSample (addSample [] sampleA) sampleA) "file-1" = some sampleA := by
  decide

/-- C5 (amended): `addSample` performs no duplicate-key check: it always
appends, leaving every existing record (and what `getSample` returns for any
already-present id) unchanged. -/
theorem addSample_appends_unconditionally {π ρ ν : Type} (samples : List (Sample π ρ ν))
    (s : Sample π ρ ν) :
    (addSample samples s).length = samples.length + 1 ∧
    (∀ i, i < samples.length → (addSample samples s)[i]? = samples[i]?) ∧
    (addSample samples s)[samples.length]? = some s ∧
    (∀ fid, (getSample samples fid).isSome = true →
      getSample (addSample samples s) fid = getSample samples fid) := by
  refine ⟨by simp [addSample], fun i hi => ?_, ?_, fun fid hf => ?_⟩
  · exact List.getElem?_append_left hi
  · exact List.getElem?_concat_length samples s
  · unfold getSample addSample
    rw [List.find?_append]
    obtain ⟨v, hv⟩ := Option.isSome_iff_exists.mp hf
    unfold getSample at hv
    simp [hv]

/-- Witness for C5 (amended): adding `sampleA` on top of itself yields two
records and `getSample` still returns the original. -/
theorem addSample_appends_unconditionally_witness :
    (addSample [sampleA] sampleA).length = 2 ∧
    getSample (addSample [sampleA] sampleA) "file-1" = getSample [sampleA] "file-1" := by
  refine ⟨(addSample_appends_unconditionally [sampleA] sampleA).1, ?_⟩
  exact (addSample_appends_unconditionally [sampleA] sampleA).2.2.2 "file-1" (by decide)

/-- C6 counterexample: `updateSampleStatus` moves a `complete` record back to
`uploading` — the registry does not enforce forward-only status transitions. -/
theorem updateSampleStatus_backward_counterexample :
    ([sampleDone] : List (Sample Unit Unit Unit))[0]?.map (fun s => s.status) =
      some .complete ∧
    (updateSampleStatus [sampleDone] "file-1" .uploading)[0]?.map (fun s => s.status) =
      some .uploading := by
  decide

/-- C6 (amended): `updateSampleStatus` replaces the status of every matching
sample with exactly the given value, whatever the current status is; no
forward-only ordering is enforced by the registry. -/
theorem updateSampleStatus_sets_exactly {π ρ ν : Type} (samples : List (Sample π ρ ν))
    (fid : String) (st : SampleStatus) (i : Nat) (s : Sample π ρ ν)
    (h : samples[i]? = some s) :
    (updateSampleStatus samples fid st)[i]? =
      some (if s.fileId == fid then { s with status := st } else s) := by
  simp [updateSampleStatus, List.getElem?_map, h]

/-- Witness for C6 (amended): the concrete backward transition obtained from
the theorem. -/
theorem updateSampleStatus_sets_exactly_witness :
    (updateSampleStatus [sampleDone] "file-1" .uploading)[0]? =
      some (if sampleDone.fileId == "file-1" then { sampleDone with status := .uploading }
        else sampleDone) := by
  exact updateSampleStatus_sets_exactly [sampleDone] "file-1" .uploading 0 sampleDone (by decide)

/-- C9: a `json_result` event as the first event of a job's log bypasses the
pipeline derivation and surfaces the raw payload verbatim, whatever events
follow for the lifetime of the job. -/
theorem json_result_first_bypasses_pipeline {α : Type} (d : α) (rest : List (AnalysisLog α)) :
    renderMode (AnalysisLog.json_result d :: rest) = .rawJson d := rfl

/-! ### How single reducer operations move entries of the step array -/

theorem stepEvolves_refl {α : Type} (o : Option (PipelineStep α)) : stepEvolves o o :=
  .inl rfl

theorem stepEvolves_trans {α : Type} (o m n : Option (PipelineStep α))
    (h1 : stepEvolves o m) (h2 : stepEvolves m n) : stepEvolves o n := by
  rcases h2 with h2 | ⟨s, d, hm, hs, hn⟩ | ⟨s, hm, hs, hn⟩
  · rw [h2]; exact h1
  · rcases h1 with h1 | ⟨s', d', ho, hs', hm'⟩ | ⟨s', ho, hs', hm'⟩
    · rw [h1] at hm
      exact .inr (.inl ⟨s, d, hm, hs, hn⟩)
    · rw [hm'] at hm
      injection hm with hm
      subst hm
      exact absurd rfl hs
    · rw [hm'] at hm
      injection hm with hm
      subst hm
      refine .inr (.inl ⟨s', d, ho, ?_, hn⟩)
      rw [hs']
      intro h
      exact Status.noConfusion h
  · rcases h1 with h1 | ⟨s', d', ho, hs', hm'⟩ | ⟨s', ho, hs', hm'⟩
    · rw [h1] at hm
      exact .inr (.inr ⟨s, hm, hs, hn⟩)
    · rw [hm'] at hm
      injection hm with hm
      subst hm
      exact absurd hs (by intro h; exact Status.noConfusion h)
    · rw [hm'] at hm
      injection hm with hm
      subst hm
      exact absurd hs (by intro h; exact Status.noConfusion h)

theorem cascadeActivate_evolves {α : Type} (l : List (PipelineStep α)) (i j : Nat) :
    stepEvolves l[j]? (cascadeActivate l i)[j]? := by
  unfold cascadeActivate
  cases h0 : l[i]? with
  | none => exact stepEvolves_refl _
  | some t =>
    dsimp only
    by_cases ht : t.status = .pending
    · rw [if_pos ht]
      by_cases hij : j = i
      · subst hij
        refine .inr (.inr ⟨t, h0, ht, ?_⟩)
        exact List.getElem?_set_self (List.getElem?_eq_some.mp h0).1
      · exact .inl (List.getElem?_set_ne fun h => hij h.symm)
    · rw [if_neg ht]
      exact stepEvolves_refl _

theorem completeAt_evolves {α : Type} (l : List (PipelineStep α)) (i : Nat) (d : Option α)
    (j : Nat) : stepEvolves l[j]? (completeAt l i d)[j]? := by
  unfold completeAt
  cases h0 : l[i]? with
  | none => exact stepEvolves_refl _
  | some t =>
    dsimp only
    by_cases ht : t.status = .complete
    · rw [if_pos ht]
      exact stepEvolves_refl _
    · rw [if_neg ht]
      refine stepEvolves_trans _
        ((l.set i { t with status := .complete, resultData := d })[j]?) _ ?_
        (cascadeActivate_evolves _ (i + 1) j)
      by_cases hij : j = i
      · subst hij
        refine .inr (.inl ⟨t, d, h0, ht, ?_⟩)
        exact List.getElem?_set_self (List.getElem?_eq_some.mp h0).1
      · exact .inl (List.getElem?_set_ne fun h => hij h.symm)

theorem handleCompletion_evolves {α : Type} (l : List (PipelineStep α)) (stepId : String)
    (d : Option α) (j : Nat) : stepEvolves l[j]? (handleCompletion l stepId d)[j]? := by
  unfold handleCompletion
  cases findIndexById l stepId with
  | none => exact stepEvolves_refl _
  | some index => exact completeAt_evolves l index d j

theorem activateStep_evolves {α : Type} (l : List (PipelineStep α)) (stepId : String)
    (j : Nat) : stepEvolves l[j]? (activateStep l stepId)[j]? := by
  unfold activateStep
  cases findIndexById l stepId with
  | none => exact stepEvolves_refl _
  | some index => exact cascadeActivate_evolves l index j

theorem applyEvent_evolves {α : Type} (st : DeriveState α) (e : AnalysisLog α) (j : Nat) :
    stepEvolves st.steps[j]? (applyEvent st e).steps[j]? := by
  cases e with
  | log message =>
    dsimp only [applyEvent]
    split_ifs
    · exact activateStep_evolves st.steps "read_sequences" j
    · exact handleCompletion_evolves st.steps "read_sequences" none j
    · exact activateStep_evolves st.steps "generate_embeddings" j
    · exact stepEvolves_trans _ ((handleCompletion st.steps "generate_embeddings" none)[j]?) _
        (handleCompletion_evolves st.steps "generate_embeddings" none j)
        (activateStep_evolves _ "umap_hdbscan" j)
    · exact handleCompletion_evolves st.steps "umap_hdbscan" none j
    · exact activateStep_evolves st.steps "ncbi_verification" j
    · exact stepEvolves_refl _
  | progress step status =>
    dsimp only [applyEvent]
    split_ifs
    · exact handleCompletion_evolves st.steps step none j
    · exact stepEvolves_refl _
  | clustering_result data =>
    exact stepEvolves_trans _ ((handleCompletion st.steps "umap_hdbscan" none)[j]?) _
      (handleCompletion_evolves st.steps "umap_hdbscan" none j)
      (handleCompletion_evolves _ "clustering_result" (some data) j)
  | verification_update data =>
    exact activateStep_evolves st.steps "ncbi_verification" j
  | complete =>
    exact stepEvolves_trans _ ((handleCompletion st.steps "ncbi_verification" none)[j]?) _
      (handleCompletion_evolves st.steps "ncbi_verification" none j)
      (handleCompletion_evolves _ "analysis_complete" none j)
  | error m => exact stepEvolves_refl _
  | json_result data => exact stepEvolves_refl _

theorem foldl_evolves {α : Type} (Q : List (AnalysisLog α)) (st : DeriveState α) (j : Nat) :
    stepEvolves st.steps[j]? (Q.foldl applyEvent st).steps[j]? := by
  induction Q generalizing st with
  | nil => exact stepEvolves_refl _
  | cons e Q ih =>
    exact stepEvolves_trans _ ((applyEvent st e).steps[j]?) _
      (applyEvent_evolves st e j) (ih (applyEvent st e))

theorem deriveSteps_append_evolves {α : Type} (P Q : List (AnalysisLog α)) (j : Nat) :
    stepEvolves (deriveSteps P)[j]? (deriveSteps (P ++ Q))[j]? := by
  unfold deriveSteps deriveState
  rw [List.foldl_append]
  exact foldl_evolves Q _ j

theorem stepEvolves_complete_fixed {α : Type} {o n : Option (PipelineStep α)}
    {s : PipelineStep α} (h : stepEvolves o n) (ho : o = some s)
    (hc : s.status = .complete) : n = some s := by
  rcases h with he | ⟨s', d, h1, h2, _⟩ | ⟨s', h1, h2, _⟩
  · rw [he, ho]
  · rw [ho] at h1
    injection h1 with h1
    rw [h1] at hc
    exact absurd hc h2
  · rw [ho] at h1
    injection h1 with h1
    rw [h1, h2] at hc
    exact Status.noConfusion hc

theorem deriveSteps_complete_frozen {α : Type} (P Q : List (AnalysisLog α)) (j : Nat)
    (s : PipelineStep α) (h : (deriveSteps P)[j]? = some s) (hc : s.status = .complete) :
    (deriveSteps (P ++ Q))[j]? = some s :=
  stepEvolves_complete_fixed (deriveSteps_append_evolves P Q j) h hc

/-- C1: derivation is monotone under appending events — a step that is
`complete` in the array derived from a prefix `P` is the very same entry
(same status and same `resultData`) in the array derived from any extension
`P ++ Q`. -/
theorem deriveSteps_monotone {α : Type} (P Q : List (AnalysisLog α)) (j : Nat)
    (s : PipelineStep α) (h : (deriveSteps P)[j]? = some s) (hc : s.status = .complete) :
    (deriveSteps (P ++ Q))[j]? = some s :=
  deriveSteps_complete_frozen P Q j s h hc

/-- Witness for C1: after the prefix `[progress read_sequences complete]` the
first step is complete, and it stays that exact entry when `[complete]` is
appended. -/
theorem deriveSteps_monotone_witness :
    (deriveSteps (α := Unit)
        ([.progress "read_sequences" "complete"] ++ [.complete]))[0]? =
      some { id := "read_sequences", label := "Reading Sequences...",
             status := .complete, resultData := none } :=
  deriveSteps_monotone [.progress "read_sequences" "complete"] [.complete] 0
    { id := "read_sequences", label := "Reading Sequences...",
      status := .complete, resultData := none } (by rfl) rfl

theorem completeAt_next_entry {α : Type} (l : List (PipelineStep α)) (index : Nat)
    (d : Option α) (s : PipelineStep α) (hs : l[index + 1]? = some s) :
    (s.status ≠ .pending → (completeAt l index d)[index + 1]? = some s) ∧
    (s.status = .pending →
      (completeAt l index d)[index + 1]? = some s ∨
      (completeAt l index d)[index + 1]? = some { s with status := .active }) := by
  have hne : index ≠ index + 1 := by omega
  unfold completeAt
  cases h0 : l[index]? with
  | none => exact ⟨fun _ => hs, fun _ => .inl hs⟩
  | some t =>
    dsimp only
    by_cases ht : t.status = .complete
    · rw [if_pos ht]
      exact ⟨fun _ => hs, fun _ => .inl hs⟩
    · rw [if_neg ht]
      have h1 : (l.set index { t with status := .complete, resultData := d })[index + 1]? =
          some s := by
        rw [List.getElem?_set_ne hne]
        exact hs
      unfold cascadeActivate
      rw [h1]
      dsimp only
      by_cases hp : s.status = .pending
      · rw [if_pos hp]
        refine ⟨fun hnp => absurd hp hnp, fun _ => .inr ?_⟩
        exact List.getElem?_set_self (by
          have := (List.getElem?_eq_some.mp h1).1
          simpa using this)
      · rw [if_neg hp]
        exact ⟨fun _ => h1, fun hp2 => absurd hp2 hp⟩

/-- C3: when `handleCompletion` marks the step at `index` complete, the
cascade touches the step at `index + 1` only when its current status is
`pending` (in which case it becomes `active`); a next step that is `active`,
`complete` or `error` is left exactly as it was. -/
theorem cascade_activates_only_pending {α : Type} (l : List (PipelineStep α)) (index : Nat)
    (d : Option α) (s : PipelineStep α) (hs : l[index + 1]? = some s) :
    (s.status ≠ .pending → (completeAt l index d)[index + 1]? = some s) ∧
    (s.status = .pending →
      (completeAt l index d)[index + 1]? = some s ∨
      (completeAt l index d)[index + 1]? = some { s with status := .active }) :=
  completeAt_next_entry l index d s hs

/-- Witness for C3 on the initial pipeline: completing step 0 finds step 1
`pending` and so the cascade makes it (at most) `active`. -/
theorem cascade_activates_only_pending_witness :
    (Status.pending ≠ Status.pending →
      (completeAt (INITIAL_PIPELINE Unit) 0 none)[0 + 1]? =
        some { id := "generate_embeddings", label := "Generating AI Embeddings...",
               status := .pending, resultData := none }) ∧
    (Status.pending = Status.pending →
      (completeAt (INITIAL_PIPELINE Unit) 0 none)[0 + 1]? =
        some { id := "generate_embeddings", label := "Generating AI Embeddings...",
               status := .pending, resultData := none } ∨
      (completeAt (INITIAL_PIPELINE Unit) 0 none)[0 + 1]? =
        some { id := "generate_embeddings", label := "Generating AI Embeddings...",
               status := .active, resultData := none }) :=
  cascade_activates_only_pending (INITIAL_PIPELINE Unit) 0 none
    { id := "generate_embeddings", label := "Generating AI Embeddings...",
      status := .pending, resultData := none } (by rfl)

/-- C4 counterexample: after the log `[log "ncbi verification", error ...]`
the active step (`ncbi_verification`, index 4) is still `active` — the
reducer does not mark the active pipeline step `error` on a terminal error
event. -/
theorem error_event_counterexample :
    ((deriveSteps (α := Unit)
        [.log "ncbi verification", .error "Analysis failed"])[4]?).map
        (fun s => s.status) = some .active ∧
    Status.active ≠ Status.error := by
  decide

/-- C4 (amended): a terminal `error` event leaves the derived step array (and
the whole derive state) unchanged — the error is surfaced separately, not on
the active step; the job status becomes `error` and the connector (modelled
from the spec) accepts no further events after it. -/
theorem error_event_behavior {α : Type} (L : List (AnalysisLog α)) (m : String)
    (start : SampleStatus) (e : AnalysisLog α) :
    deriveState (L ++ [.error m]) = deriveState L ∧
    jobStatusAfter start (L ++ [.error m]) = .error ∧
    connectorAppend (L ++ [.error m]) e = L ++ [.error m] := by
  refine ⟨?_, ?_, ?_⟩
  · unfold deriveState
    rw [List.foldl_append]
    rfl
  · unfold jobStatusAfter
    rw [List.foldl_append]
    rfl
  · unfold connectorAppend
    have hterm : ((L ++ [AnalysisLog.error m]).any fun x => isTerminal x) = true := by
      simp [List.any_append, isTerminal]
    simp [hterm]

/-- C8: for the two-event log `[log "reading sequences", log "found 1000
sequences"]` the derived array has `read_sequences` complete and
`generate_embeddings` active (and the remaining steps untouched). -/
theorem cascade_correctness_scenario (α : Type) :
    deriveSteps (α := α) [.log "reading sequences", .log "found 1000 sequences"] =
      [ { id := "read_sequences", label := "Reading Sequences...", status := .complete,
          resultData := none },
        { id := "generate_embeddings", label := "Generating AI Embeddings...",
          status := .active },
        { id := "umap_hdbscan", label := "Running UMAP & HDBSCAN...", status := .pending },
        { id := "clustering_result", label := "Clustering Complete", status := .pending },
        { id := "ncbi_verification", label := "Starting NCBI Verification (Slow)...",
          status := .pending },
        { id := "analysis_complete", label := "Analysis Complete", status := .pending } ] := rfl

/-- C2 counterexample: the two activation messages `"reading sequences"` and
`"generating embeddings"` yield a derived array with TWO active steps, so the
single-active invariant fails. -/
theorem single_active_counterexample :
    activeCount (deriveSteps (α := Unit)
      [.log "reading sequences", .log "generating embeddings"]) = 2 := by
  decide

/-! ### The derived array always has the six canonical ids -/

theorem stepEvolves_id {α : Type} (o n : Option (PipelineStep α)) (h : stepEvolves o n) :
    n.map (fun s => s.id) = o.map (fun s => s.id) := by
  rcases h with he | ⟨s, d, ho, _, hn⟩ | ⟨s, ho, _, hn⟩
  · rw [he]
  · rw [ho, hn]
    rfl
  · rw [ho, hn]
    rfl

theorem applyEvent_preserves_shape {α : Type} (st : DeriveState α) (e : AnalysisLog α)
    (h : Shaped st.steps) : Shaped (applyEvent st e).steps := by
  unfold Shaped at h ⊢
  have hmap : (applyEvent st e).steps.map (fun s => s.id) = st.steps.map (fun s => s.id) :=
    List.ext_getElem? fun n => by
      rw [List.getElem?_map, List.getElem?_map,
        stepEvolves_id _ _ (applyEvent_evolves st e n)]
  rw [hmap, h]

theorem foldl_preserves_shape {α : Type} (L : List (AnalysisLog α)) (st : DeriveState α)
    (h : Shaped st.steps) : Shaped (L.foldl applyEvent st).steps := by
  induction L generalizing st with
  | nil => exact h
  | cons e L ih => exact ih _ (applyEvent_preserves_shape st e h)

theorem deriveSteps_shaped {α : Type} (L : List (AnalysisLog α)) :
    Shaped (deriveSteps L) :=
  foldl_preserves_shape L (initState α) rfl

theorem shaped_elim {α : Type} {l : List (PipelineStep α)} (h : Shaped l) :
    ∃ a b c d e f : PipelineStep α, l = [a, b, c, d, e, f] ∧
      a.id = "read_sequences" ∧ b.id = "generate_embeddings" ∧ c.id = "umap_hdbscan" ∧
      d.id = "clustering_result" ∧ e.id = "ncbi_verification" ∧
      f.id = "analysis_complete" := by
  unfold Shaped stepIds at h
  rcases l with _ | ⟨a, _ | ⟨b, _ | ⟨c, _ | ⟨d, _ | ⟨e, _ | ⟨f, _ | ⟨g, t⟩⟩⟩⟩⟩⟩⟩ <;> simp at h
  exact ⟨a, b, c, d, e, f, rfl, h.1, h.2.1, h.2.2.1, h.2.2.2.1, h.2.2.2.2.1, h.2.2.2.2.2⟩

theorem findIndexById_shaped {α : Type} {l : List (PipelineStep α)} (h : Shaped l) :
    findIndexById l "read_sequences" = some 0 ∧
    findIndexById l "generate_embeddings" = some 1 ∧
    findIndexById l "umap_hdbscan" = some 2 ∧
    findIndexById l "clustering_result" = some 3 ∧
    findIndexById l "ncbi_verification" = some 4 ∧
    findIndexById l "analysis_complete" = some 5 := by
  obtain ⟨a, b, c, d, e, f, rfl, ha, hb, hc, hd, he, hf⟩ := shaped_elim h
  refine ⟨?_, ?_, ?_, ?_, ?_, ?_⟩ <;>
    simp [findIndexById, findIndexFrom, ha, hb, hc, hd, he, hf]

/-! ### Bounding the number of active steps -/

theorem activeCount_set {α : Type} (l : List (PipelineStep α)) (i : Nat)
    (a s : PipelineStep α) (h : l[i]? = some s) :
    activeCount (l.set i a) + (if (s.status == Status.active) = true then 1 else 0) =
      activeCount l + (if (a.status == Status.active) = true then 1 else 0) := by
  induction l generalizing i with
  | nil => simp at h
  | cons x xs ih =>
    cases i with
    | zero =>
      have hx : x = s := by simpa using h
      subst hx
      simp only [List.set_cons_zero, activeCount, List.countP_cons]
      omega
    | succ n =>
      simp only [List.set_cons_succ, activeCount, List.countP_cons]
      have := ih n (by simpa using h)
      simp only [activeCount] at this
      omega

theorem activeCount_set_le {α : Type} (l : List (PipelineStep α)) (i : Nat)
    (a : PipelineStep α) (ha : (a.status == Status.active) = false) :
    activeCount (l.set i a) ≤ activeCount l := by
  cases h : l[i]? with
  | none =>
    rw [List.set_eq_of_length_le (by simpa using List.getElem?_eq_none_iff.mp h)]
  | some s =>
    have := activeCount_set l i a s h
    rw [ha] at this
    simp only [Bool.false_eq_true, if_false] at this
    omega

theorem activeCount_set_le_succ {α : Type} (l : List (PipelineStep α)) (i : Nat)
    (a : PipelineStep α) : activeCount (l.set i a) ≤ activeCount l + 1 := by
  cases h : l[i]? with
  | none =>
    rw [List.set_eq_of_length_le (by simpa using List.getElem?_eq_none_iff.mp h)]
    omega
  | some s =>
    have := activeCount_set l i a s h
    have h1 : (if (a.status == Status.active) = true then 1 else 0) ≤ 1 := by
      split_ifs <;> omega
    omega

/-- Exactly how `cascadeActivate` can change the array. -/
theorem cascadeActivate_cases {α : Type} (l : List (PipelineStep α)) (i : Nat) :
    cascadeActivate l i = l ∨
    ∃ t, l[i]? = some t ∧ t.status = .pending ∧
      cascadeActivate l i = l.set i { t with status := .active } := by
  unfold cascadeActivate
  cases h0 : l[i]? with
  | none => exact .inl rfl
  | some t =>
    dsimp only
    by_cases ht : t.status = .pending
    · rw [if_pos ht]
      exact .inr ⟨t, rfl, ht, rfl⟩
    · rw [if_neg ht]
      exact .inl rfl

/-- Exactly how `completeAt` can change the array. -/
theorem completeAt_cases {α : Type} (l : List (PipelineStep α)) (i : Nat) (d : Option α) :
    (completeAt l i d = l ∧ (∀ s, l[i]? = some s → s.status = .complete)) ∨
    ∃ s, l[i]? = some s ∧ s.status ≠ .complete ∧
      completeAt l i d =
        cascadeActivate (l.set i { s with status := .complete, resultData := d }) (i + 1) := by
  unfold completeAt
  cases h0 : l[i]? with
  | none => exact .inl ⟨rfl, fun s hs => Option.noConfusion hs⟩
  | some s =>
    dsimp only
    by_cases hs : s.status = .complete
    · rw [if_pos hs]
      refine .inl ⟨rfl, fun t ht => ?_⟩
      injection ht with ht
      rw [← ht]
      exact hs
    · rw [if_neg hs]
      exact .inr ⟨s, rfl, hs, rfl⟩

theorem cascadeActivate_activeCount_le {α : Type} (l : List (PipelineStep α)) (i : Nat) :
    activeCount (cascadeActivate l i) ≤ activeCount l + 1 := by
  rcases cascadeActivate_cases l i with h | ⟨t, _, _, h⟩
  · rw [h]
    omega
  · rw [h]
    exact activeCount_set_le_succ l i _

theorem completeAt_activeCount_le {α : Type} (l : List (PipelineStep α)) (i : Nat)
    (d : Option α) : activeCount (completeAt l i d) ≤ activeCount l + 1 := by
  rcases completeAt_cases l i d with ⟨h, _⟩ | ⟨s, hs, _, h⟩
  · rw [h]
    omega
  · rw [h]
    have h1 := cascadeActivate_activeCount_le
      (l.set i { s with status := .complete, resultData := d }) (i + 1)
    have h2 := activeCount_set_le l i { s with status := .complete, resultData := d }
      (by simp)
    omega

/-- Completing a step that is currently `active` never increases the number
of active steps: the completion consumes the active step and the cascade adds
at most one. -/
theorem completeAt_activeCount_le_of_active {α : Type} (l : List (PipelineStep α)) (i : Nat)
    (d : Option α) (s : PipelineStep α) (h : l[i]? = some s) (hs : s.status = .active) :
    activeCount (completeAt l i d) ≤ activeCount l := by
  rcases completeAt_cases l i d with ⟨hcc, _⟩ | ⟨s', hs', _, hcc⟩
  · rw [hcc]
  · have hss : s' = s := by
      rw [hs'] at h
      injection h
    rw [hss] at hcc hs'
    rw [hcc]
    have h1 := cascadeActivate_activeCount_le
      (l.set i { s with status := .complete, resultData := d }) (i + 1)
    have h2 := activeCount_set l i { s with status := .complete, resultData := d } s hs'
    rw [hs] at h2
    simp at h2
    omega

/-- Either `completeAt` does not increase the active count at all, or the
step after the completed one was `pending`, became `active`, and the count
grew by at most one. -/
theorem completeAt_activeCount_cases {α : Type} (l : List (PipelineStep α)) (i : Nat)
    (d : Option α) :
    activeCount (completeAt l i d) ≤ activeCount l ∨
    (∃ s', (completeAt l i d)[i + 1]? = some s' ∧ s'.status = .active ∧
      activeCount (completeAt l i d) ≤ activeCount l + 1) := by
  rcases completeAt_cases l i d with ⟨hcc, _⟩ | ⟨s, hs, hsnc, hcc⟩
  · rw [hcc]
    exact .inl le_rfl
  · have hset : activeCount (l.set i { s with status := .complete, resultData := d }) ≤
        activeCount l := activeCount_set_le l i _ (by simp)
    rcases cascadeActivate_cases (l.set i { s with status := .complete, resultData := d })
        (i + 1) with hca | ⟨t, ht, htp, hca⟩
    · rw [hcc, hca]
      exact .inl hset
    · right
      have hlen : i + 1 < (l.set i { s with status := .complete, resultData := d }).length :=
        (List.getElem?_eq_some.mp ht).1
      refine ⟨{ t with status := .active }, ?_, rfl, ?_⟩
      · rw [hcc, hca]
        exact List.getElem?_set_self (by simpa using hlen)
      · rw [hcc, hca]
        have := activeCount_set_le_succ
          (l.set i { s with status := .complete, resultData := d }) (i + 1)
          { t with status := .active }
        omega

theorem handleCompletion_eq_completeAt {α : Type} (l : List (PipelineStep α))
    (stepId : String) (d : Option α) (k : Nat) (h : findIndexById l stepId = some k) :
    handleCompletion l stepId d = completeAt l k d := by
  unfold handleCompletion
  rw [h]

theorem activateStep_eq_cascadeActivate {α : Type} (l : List (PipelineStep α))
    (stepId : String) (k : Nat) (h : findIndexById l stepId = some k) :
    activateStep l stepId = cascadeActivate l k := by
  unfold activateStep
  rw [h]

theorem handleCompletion_activeCount_le {α : Type} (l : List (PipelineStep α))
    (stepId : String) (d : Option α) :
    activeCount (handleCompletion l stepId d) ≤ activeCount l + 1 := by
  unfold handleCompletion
  cases findIndexById l stepId with
  | none => exact Nat.le_succ _
  | some index => exact completeAt_activeCount_le l index d

theorem activateStep_activeCount_le {α : Type} (l : List (PipelineStep α))
    (stepId : String) : activeCount (activateStep l stepId) ≤ activeCount l + 1 := by
  unfold activateStep
  cases findIndexById l stepId with
  | none => exact Nat.le_succ _
  | some index => exact cascadeActivate_activeCount_le l index

theorem shape_preserved_of_evolves {α : Type} {l l' : List (PipelineStep α)}
    (hev : ∀ j : Nat, stepEvolves l[j]? l'[j]?) (h : Shaped l) : Shaped l' := by
  unfold Shaped at h ⊢
  have hmap : l'.map (fun s => s.id) = l.map (fun s => s.id) :=
    List.ext_getElem? fun n => by
      rw [List.getElem?_map, List.getElem?_map, stepEvolves_id _ _ (hev n)]
  rw [hmap, h]

theorem handleCompletion_shaped {α : Type} {l : List (PipelineStep α)} (stepId : String)
    (d : Option α) (h : Shaped l) : Shaped (handleCompletion l stepId d) :=
  shape_preserved_of_evolves (fun j => handleCompletion_evolves l stepId d j) h

/-- Completing step `i` and then completing step `i + 1` (the compound shape
of the `clustering_result` and `complete` event handlers) adds at most one
active step in total. -/
theorem completeAt_pair_activeCount_le {α : Type} (l : List (PipelineStep α)) (i : Nat)
    (d d' : Option α) :
    activeCount (completeAt (completeAt l i d) (i + 1) d') ≤ activeCount l + 1 := by
  rcases completeAt_activeCount_cases l i d with h1 | ⟨s', hs', hact, h1⟩
  · have h2 := completeAt_activeCount_le (completeAt l i d) (i + 1) d'
    omega
  · have h2 := completeAt_activeCount_le_of_active (completeAt l i d) (i + 1) d' s' hs' hact
    omega

theorem applyEvent_activeCount_le {α : Type} (st : DeriveState α) (e : AnalysisLog α)
    (hsh : Shaped st.steps) :
    activeCount (applyEvent st e).steps ≤ activeCount st.steps + 1 := by
  cases e with
  | log message =>
    dsimp only [applyEvent]
    split_ifs
    · exact activateStep_activeCount_le _ _
    · exact handleCompletion_activeCount_le _ _ _
    · exact activateStep_activeCount_le _ _
    · -- "running umap": complete `generate_embeddings` (index 1), then try to
      -- activate `umap_hdbscan` (index 2 = the cascade target of index 1).
      have hidx1 : findIndexById st.steps "generate_embeddings" = some 1 :=
        (findIndexById_shaped hsh).2.1
      have hsh' : Shaped (handleCompletion st.steps "generate_embeddings" none) :=
        handleCompletion_shaped _ _ hsh
      have hidx2 : findIndexById (handleCompletion st.steps "generate_embeddings" none)
          "umap_hdbscan" = some 2 := (findIndexById_shaped hsh').2.2.1
      show activeCount (activateStep (handleCompletion st.steps "generate_embeddings" none)
          "umap_hdbscan") ≤ activeCount st.steps + 1
      rw [activateStep_eq_cascadeActivate _ _ 2 hidx2,
        handleCompletion_eq_completeAt _ _ _ 1 hidx1]
      rcases completeAt_activeCount_cases st.steps 1 none with h1 | ⟨s', hs', hact, h1⟩
      · have h2 := cascadeActivate_activeCount_le (completeAt st.steps 1 none) 2
        omega
      · -- index 2 is already active, so the second activation is a no-op
        have hs2 : (completeAt st.steps 1 none)[2]? = some s' := by
          simpa using hs'
        rcases cascadeActivate_cases (completeAt st.steps 1 none) 2 with hca | ⟨t, ht, htp, _⟩
        · rw [hca]
          omega
        · rw [hs2] at ht
          injection ht with ht
          rw [← ht, hact] at htp
          exact absurd htp (by intro hcontra; exact Status.noConfusion hcontra)
    · exact handleCompletion_activeCount_le _ _ _
    · exact activateStep_activeCount_le _ _
    · exact Nat.le_succ _
  | progress stp sts =>
    dsimp only [applyEvent]
    split_ifs
    · exact handleCompletion_activeCount_le _ _ _
    · exact Nat.le_succ _
  | clustering_result dd =>
    have hidx2 : findIndexById st.steps "umap_hdbscan" = some 2 :=
      (findIndexById_shaped hsh).2.2.1
    have hsh' : Shaped (handleCompletion st.steps "umap_hdbscan" none) :=
      handleCompletion_shaped _ _ hsh
    have hidx3 : findIndexById (handleCompletion st.steps "umap_hdbscan" none)
        "clustering_result" = some 3 := (findIndexById_shaped hsh').2.2.2.1
    show activeCount (handleCompletion (handleCompletion st.steps "umap_hdbscan" none)
        "clustering_result" (some dd)) ≤ activeCount st.steps + 1
    rw [handleCompletion_eq_completeAt _ _ _ 3 hidx3,
      handleCompletion_eq_completeAt _ _ _ 2 hidx2]
    exact completeAt_pair_activeCount_le st.steps 2 none (some dd)
  | complete =>
    have hidx4 : findIndexById st.steps "ncbi_verification" = some 4 :=
      (findIndexById_shaped hsh).2.2.2.2.1
    have hsh' : Shaped (handleCompletion st.steps "ncbi_verification" none) :=
      handleCompletion_shaped _ _ hsh
    have hidx5 : findIndexById (handleCompletion st.steps "ncbi_verification" none)
        "analysis_complete" = some 5 := (findIndexById_shaped hsh').2.2.2.2.2
    show activeCount (handleCompletion (handleCompletion st.steps "ncbi_verification" none)
        "analysis_complete" none) ≤ activeCount st.steps + 1
    rw [handleCompletion_eq_completeAt _ _ _ 5 hidx5,
      handleCompletion_eq_completeAt _ _ _ 4 hidx4]
    exact completeAt_pair_activeCount_le st.steps 4 none none
  | verification_update dd =>
    dsimp only [applyEvent]
    exact activateStep_activeCount_le _ _
  | error m => exact Nat.le_succ _
  | json_result dd => exact Nat.le_succ _

theorem foldl_activeCount_le {α : Type} (L : List (AnalysisLog α)) (st : DeriveState α)
    (h : Shaped st.steps) :
    activeCount (L.foldl applyEvent st).steps ≤ activeCount st.steps + L.length := by
  induction L generalizing st with
  | nil => simp
  | cons e L ih =>
    have h1 := applyEvent_activeCount_le st e h
    have h2 := ih (applyEvent st e) (applyEvent_preserves_shape st e h)
    simp only [List.foldl_cons, List.length_cons]
    omega

/-- C2 (amended): deriving from a log of `n` events yields at most `n` active
steps — each event can newly activate at most one step, but nothing limits
the total to one, so the single-active invariant fails (see the
counterexample with two active steps). -/
theorem active_steps_bounded_by_events {α : Type} (L : List (AnalysisLog α)) :
    activeCount (deriveSteps L) ≤ L.length := by
  have h := foldl_activeCount_le L (initState α) rfl
  have h0 : activeCount (initState α).steps = 0 := rfl
  unfold deriveSteps deriveState
  omega

/-! ### The clustering_result / complete event handlers complete their steps -/

theorem stepEvolves_statusLE {α : Type} {o n : Option (PipelineStep α)}
    {s s' : PipelineStep α} (h : stepEvolves o n) (ho : o = some s)
    (hn : n = some s') : statusLE s.status s'.status := by
  rcases h with he | ⟨t, dd, hto, _, htn⟩ | ⟨t, hto, htp, htn⟩
  · rw [he, ho] at hn
    injection hn with hn
    rw [hn]
    exact .inl rfl
  · rw [htn] at hn
    injection hn with hn
    rw [← hn]
    exact .inr (.inr rfl)
  · rw [ho] at hto
    injection hto with hto
    rw [← hto] at htp
    exact .inr (.inl htp)

theorem cascadeActivate_getElem?_ne {α : Type} (l : List (PipelineStep α)) (i j : Nat)
    (hne : i ≠ j) : (cascadeActivate l i)[j]? = l[j]? := by
  rcases cascadeActivate_cases l i with h | ⟨t, _, _, h⟩
  · rw [h]
  · rw [h]
    exact List.getElem?_set_ne hne

/-- `completeAt` always leaves the targeted entry `complete` when it exists,
and attaches exactly the given `resultData` when the entry was not already
complete. -/
theorem completeAt_completes {α : Type} (l : List (PipelineStep α)) (k : Nat)
    (dd : Option α) (s : PipelineStep α) (h : l[k]? = some s) :
    ∃ s', (completeAt l k dd)[k]? = some s' ∧ s'.status = .complete ∧
      (s.status ≠ .complete → s' = { s with status := .complete, resultData := dd }) := by
  rcases completeAt_cases l k dd with ⟨hcc, hall⟩ | ⟨t, ht, htnc, hcc⟩
  · refine ⟨s, ?_, hall s h, fun hn => absurd (hall s h) hn⟩
    rw [hcc]
    exact h
  · have hts : t = s := by
      rw [ht] at h
      injection h
    subst hts
    have hlen : k < l.length := (List.getElem?_eq_some.mp h).1
    refine ⟨{ t with status := .complete, resultData := dd }, ?_, rfl, fun _ => rfl⟩
    rw [hcc, cascadeActivate_getElem?_ne _ _ _ (by omega)]
    exact List.getElem?_set_self (by simpa using hlen)

theorem shaped_length {α : Type} {l : List (PipelineStep α)} (h : Shaped l) :
    l.length = 6 := by
  have := congrArg List.length h
  simpa [stepIds] using this

theorem shaped_getElem? {α : Type} {l : List (PipelineStep α)} (h : Shaped l) (k : Nat)
    (hk : k < 6) : ∃ s, l[k]? = some s := by
  have hlen : k < l.length := by
    rw [shaped_length h]
    exact hk
  exact ⟨l[k], List.getElem?_eq_getElem hlen⟩

/-- Effect of the `clustering_result` handler on a canonically-shaped array:
`umap_hdbscan` (index 2) and `clustering_result` (index 3) end up `complete`,
and if the `clustering_result` step was not already complete the event's
payload is attached as its `resultData`. -/
theorem clustering_event_steps {α : Type} {l : List (PipelineStep α)} (hsh : Shaped l)
    (dd : α) :
    (∃ s2, (handleCompletion (handleCompletion l "umap_hdbscan" none) "clustering_result"
        (some dd))[2]? = some s2 ∧ s2.status = .complete) ∧
    (∃ s3, (handleCompletion (handleCompletion l "umap_hdbscan" none) "clustering_result"
        (some dd))[3]? = some s3 ∧ s3.status = .complete) ∧
    ((∀ s, l[3]? = some s → s.status ≠ .complete) →
      ∃ s3, (handleCompletion (handleCompletion l "umap_hdbscan" none) "clustering_result"
        (some dd))[3]? = some s3 ∧ s3.status = .complete ∧ s3.resultData = some dd) := by
  have hidx2 : findIndexById l "umap_hdbscan" = some 2 := (findIndexById_shaped hsh).2.2.1
  have hsh1 : Shaped (handleCompletion l "umap_hdbscan" none) :=
    handleCompletion_shaped _ _ hsh
  have hidx3 : findIndexById (handleCompletion l "umap_hdbscan" none) "clustering_result" =
      some 3 := (findIndexById_shaped hsh1).2.2.2.1
  rw [handleCompletion_eq_completeAt _ _ _ 2 hidx2] at hsh1 hidx3
  rw [handleCompletion_eq_completeAt _ _ _ 2 hidx2,
    handleCompletion_eq_completeAt _ _ _ 3 hidx3]
  refine ⟨?_, ?_, ?_⟩
  · obtain ⟨s2, h2⟩ := shaped_getElem? hsh 2 (by omega)
    obtain ⟨s2', h2', h2c, _⟩ := completeAt_completes l 2 none s2 h2
    refine ⟨s2', ?_, h2c⟩
    exact stepEvolves_complete_fixed (completeAt_evolves (completeAt l 2 none) 3 (some dd) 2)
      h2' h2c
  · obtain ⟨s3, h3⟩ := shaped_getElem? hsh1 3 (by omega)
    obtain ⟨s3', h3', h3c, _⟩ := completeAt_completes (completeAt l 2 none) 3 (some dd) s3 h3
    exact ⟨s3', h3', h3c⟩
  · intro hcond
    obtain ⟨s3, h3⟩ := shaped_getElem? hsh 3 (by omega)
    have h3' : l[2 + 1]? = some s3 := by simpa using h3
    have hnc : s3.status ≠ .complete := hcond s3 h3
    have hnext := completeAt_next_entry l 2 none s3 h3'
    by_cases hp : s3.status = .pending
    · rcases hnext.2 hp with hcase | hcase
      · have hu : (completeAt l 2 none)[3]? = some s3 := by simpa using hcase
        obtain ⟨s'', h'', hc'', hres⟩ := completeAt_completes (completeAt l 2 none) 3
          (some dd) s3 hu
        refine ⟨s'', h'', hc'', ?_⟩
        rw [hres hnc]
      · have hu : (completeAt l 2 none)[3]? = some { s3 with status := Status.active } := by
          simpa using hcase
        obtain ⟨s'', h'', hc'', hres⟩ := completeAt_completes (completeAt l 2 none) 3
          (some dd) { s3 with status := Status.active } hu
        refine ⟨s'', h'', hc'', ?_⟩
        rw [hres (by intro hx; exact Status.noConfusion hx)]
    · have hcase := hnext.1 hp
      have hu : (completeAt l 2 none)[3]? = some s3 := by simpa using hcase
      obtain ⟨s'', h'', hc'', hres⟩ := completeAt_completes (completeAt l 2 none) 3
        (some dd) s3 hu
      refine ⟨s'', h'', hc'', ?_⟩
      rw [hres hnc]

/-- Effect of the whole-job `complete` handler on a canonically-shaped array:
`ncbi_verification` (index 4) and `analysis_complete` (index 5) end up
`complete`. -/
theorem complete_event_steps {α : Type} {l : List (PipelineStep α)} (hsh : Shaped l) :
    (∃ s4, (handleCompletion (handleCompletion l "ncbi_verification" none)
        "analysis_complete" none)[4]? = some s4 ∧ s4.status = .complete) ∧
    (∃ s5, (handleCompletion (handleCompletion l "ncbi_verification" none)
        "analysis_complete" none)[5]? = some s5 ∧ s5.status = .complete) := by
  have hidx4 : findIndexById l "ncbi_verification" = some 4 :=
    (findIndexById_shaped hsh).2.2.2.2.1
  have hsh1 : Shaped (handleCompletion l "ncbi_verification" none) :=
    handleCompletion_shaped _ _ hsh
  have hidx5 : findIndexById (handleCompletion l "ncbi_verification" none)
      "analysis_complete" = some 5 := (findIndexById_shaped hsh1).2.2.2.2.2
  rw [handleCompletion_eq_completeAt _ _ _ 4 hidx4] at hsh1 hidx5
  rw [handleCompletion_eq_completeAt _ _ _ 4 hidx4,
    handleCompletion_eq_completeAt _ _ _ 5 hidx5]
  constructor
  · obtain ⟨s4, h4⟩ := shaped_getElem? hsh 4 (by omega)
    obtain ⟨s4', h4', h4c, _⟩ := completeAt_completes l 4 none s4 h4
    refine ⟨s4', ?_, h4c⟩
    exact stepEvolves_complete_fixed (completeAt_evolves (completeAt l 4 none) 5 none 4)
      h4' h4c
  · obtain ⟨s5, h5⟩ := shaped_getElem? hsh1 5 (by omega)
    obtain ⟨s5', h5', h5c, _⟩ := completeAt_completes (completeAt l 4 none) 5 none s5 h5
    exact ⟨s5', h5', h5c⟩

theorem deriveState_snoc {α : Type} (L : List (AnalysisLog α)) (e : AnalysisLog α) :
    deriveState (L ++ [e]) = applyEvent (deriveState L) e := by
  unfold deriveState
  rw [List.foldl_append]
  rfl

/-- C7 counterexample: the log `[progress clustering_result complete,
clustering_result 42, complete]` contains a `clustering_result` event
followed by a `complete` event, yet the derived `clustering_result` step
carries `resultData = none` — the payload is not attached because an earlier
`progress` event had already completed that step. -/
theorem clustering_payload_counterexample :
    ((deriveSteps (α := Nat) [.progress "clustering_result" "complete",
        .clustering_result 42, .complete])[3]?).map (fun s => (s.status, s.resultData)) =
      some (Status.complete, none) ∧
    (none : Option Nat) ≠ some 42 := by
  decide

/-- C7 (amended): for every log of the form
`P ++ clustering_result d :: (Q ++ complete :: R)` the four steps
`umap_hdbscan`, `clustering_result`, `ncbi_verification` and
`analysis_complete` are `complete` in the final derived array, no step's
status is ever regressed relative to any prefix of the log (in particular
`read_sequences` and `generate_embeddings` keep whatever earlier events set),
and the payload `d` is attached as the `clustering_result` step's
`resultData` provided that step was not already complete when the
`clustering_result` event arrived. -/
theorem clustering_then_complete {α : Type} (P Q R L : List (AnalysisLog α)) (d : α)
    (hL : L = P ++ AnalysisLog.clustering_result d :: (Q ++ AnalysisLog.complete :: R)) :
    (∀ j : Nat, (j = 2 ∨ j = 3 ∨ j = 4 ∨ j = 5) →
      ∃ s, (deriveSteps L)[j]? = some s ∧ s.status = .complete) ∧
    (∀ (P' Q' : List (AnalysisLog α)) (j : Nat) (s s' : PipelineStep α), L = P' ++ Q' →
      (deriveSteps P')[j]? = some s → (deriveSteps L)[j]? = some s' →
      statusLE s.status s'.status) ∧
    ((∀ s, (deriveSteps P)[3]? = some s → s.status ≠ .complete) →
      ∃ s, (deriveSteps L)[3]? = some s ∧ s.status = .complete ∧
        s.resultData = some d) := by
  have hA := clustering_event_steps (deriveSteps_shaped P) d
  have hB := complete_event_steps
    (deriveSteps_shaped (P ++ AnalysisLog.clustering_result d :: Q))
  have hstep1 : deriveSteps (P ++ [AnalysisLog.clustering_result d]) =
      handleCompletion (handleCompletion (deriveSteps P) "umap_hdbscan" none)
        "clustering_result" (some d) := by
    unfold deriveSteps
    rw [deriveState_snoc]
    rfl
  have hstep2 :
      deriveSteps ((P ++ AnalysisLog.clustering_result d :: Q) ++ [AnalysisLog.complete]) =
      handleCompletion (handleCompletion
        (deriveSteps (P ++ AnalysisLog.clustering_result d :: Q)) "ncbi_verification" none)
        "analysis_complete" none := by
    unfold deriveSteps
    rw [deriveState_snoc]
    rfl
  have hL1 : L = (P ++ [AnalysisLog.clustering_result d]) ++
      (Q ++ AnalysisLog.complete :: R) := by
    rw [hL]
    simp
  have hL2 : L = ((P ++ AnalysisLog.clustering_result d :: Q) ++ [AnalysisLog.complete]) ++
      R := by
    rw [hL]
    simp
  refine ⟨?_, ?_, ?_⟩
  · intro j hj
    rcases hj with rfl | rfl | rfl | rfl
    · obtain ⟨s2, h2, h2c⟩ := hA.1
      rw [← hstep1] at h2
      rw [hL1]
      exact ⟨s2, deriveSteps_complete_frozen _ _ 2 s2 h2 h2c, h2c⟩
    · obtain ⟨s3, h3, h3c⟩ := hA.2.1
      rw [← hstep1] at h3
      rw [hL1]
      exact ⟨s3, deriveSteps_complete_frozen _ _ 3 s3 h3 h3c, h3c⟩
    · obtain ⟨s4, h4, h4c⟩ := hB.1
      rw [← hstep2] at h4
      rw [hL2]
      exact ⟨s4, deriveSteps_complete_frozen _ _ 4 s4 h4 h4c, h4c⟩
    · obtain ⟨s5, h5, h5c⟩ := hB.2
      rw [← hstep2] at h5
      rw [hL2]
      exact ⟨s5, deriveSteps_complete_frozen _ _ 5 s5 h5 h5c, h5c⟩
  · intro P' Q' j s s' hPQ hs hs'
    have hev := deriveSteps_append_evolves P' Q' j
    rw [← hPQ] at hev
    exact stepEvolves_statusLE hev hs hs'
  · intro hcond
    obtain ⟨s3, h3, h3c, h3r⟩ := hA.2.2 hcond
    rw [← hstep1] at h3
    rw [hL1]
    exact ⟨s3, deriveSteps_complete_frozen _ _ 3 s3 h3 h3c, h3c, h3r⟩

/-- Witness for C7 (amended): the spec's own two-event log
`[clustering_result 42, complete]` really attaches the payload. -/
theorem clustering_then_complete_witness :
    ∃ s, (deriveSteps (α := Nat) [.clustering_result 42, .complete])[3]? = some s ∧
      s.status = .complete ∧ s.resultData = some 42 :=
  (clustering_then_complete [] [] [] [.clustering_result 42, .complete] 42 rfl).2.2
    (fun s hs => by
      have h : some (⟨"clustering_result", "Clustering Complete", .pending, none⟩ :
          PipelineStep Nat) = some s := hs
      injection h with h
      rw [← h]
      intro hx
      exact Status.noConfusion hx)

end Synapse
